import Mathlib

/-!
Verification of the polyfuse repository against its specification.

Part 1 embeds `src/crates/polyfuse/src/atomic_bytes.rs`: the `AtomicBytes`
trait and every implementation provided by the library.  A value of any
implementing type is represented by the inductive `AB`; the three trait
methods `size`, `count` and `fill_bytes` are translated into functions on
`AB`.  The `FillBytes` sink is modelled by its trace: `fillBytes v` is the
list of byte slices passed to `put`, in call order.

Part 2 embeds the serve loop of `src/polyfuse-tokio/src/server.rs`
(`Server::run_until` and `Server::mount`) as functions over a schedule of
I/O events.

Part 3 models the `ReaddirOut` streaming builder from the specification
(its implementation is not among the provided source files).
-/

namespace Polyfuse

/-- The five ownership wrappers covered by the `impl_for_pointers!` macro:
`&T`, `&mut T`, `Box<T>`, `Rc<T>`, `Arc<T>`. -/
inductive PtrKind where
  | ref
  | refMut
  | box
  | rc
  | arc
deriving DecidableEq, Repr

/-- A value of a type implementing `AtomicBytes`.

* `unit` is `()`; `arr0` is `[u8; 0]`.
* `bytes b` is a byte-like leaf (`[u8]`, `str`, `String`, `Vec<u8>`,
  `Cow<[u8]>`), identified with its byte content, as in the
  `impl_scattered_bytes_for_cont` module.
* `osStr b` is `OsStr`/`OsString` with byte content `b` (`as_bytes`).
* `ptr k t` is a pointer wrapper of kind `k` around `t`.
* `tup ts` is a tuple of components `ts` (the source provides arities 1–5
  via `impl_for_tuple!`; the fold over components is the same for each).
* `slice ts` is `[R]`; `vec ts` is `Vec<R>` (two distinct impls in the
  source, embedded separately below).
* `optNone` / `optSome t` is `Option<T>`; `eleft l` / `eright r` is
  `Either<L, R>`. -/
inductive AB where
  | unit
  | arr0
  | bytes (b : List Nat)
  | osStr (b : List Nat)
  | ptr (k : PtrKind) (t : AB)
  | tup (ts : List AB)
  | slice (ts : List AB)
  | vec (ts : List AB)
  | optNone
  | optSome (t : AB)
  | eleft (t : AB)
  | eright (t : AB)

/-- The `size` of the byte-like leaves (`impl_scattered_bytes_for_cont`):
`as_bytes(self).len()`. -/
def contSize (b : List Nat) : Nat := b.length

/-- The `count` of the byte-like leaves: `if as_bytes(self).is_empty() { 0 } else { 1 }`. -/
def contCount (b : List Nat) : Nat := if b.isEmpty then 0 else 1

/-- The `fill_bytes` of the byte-like leaves: `if !this.is_empty() { dst.put(this) }`,
as the trace of `put` calls. -/
def contFill (b : List Nat) : List (List Nat) := if b.isEmpty then [] else [b]

mutual

/-- Function `AtomicBytes::size` for every implementation in `atomic_bytes.rs`. -/
def AB.size : AB → Nat
  | .unit => 0
  | .arr0 => 0
  | .bytes b => contSize b
  | .osStr b => contSize b
  | .ptr _ t => AB.size t
  | .tup ts => AB.sizeTup ts
  | .slice ts => AB.sizeSlice ts
  | .vec ts => AB.sizeVec ts
  | .optNone => 0
  | .optSome t => AB.size t
  | .eleft l => AB.size l
  | .eright r => AB.size r

/-- The tuple `size`: `size += $T.size()` over the components in order. -/
def AB.sizeTup : List AB → Nat
  | [] => 0
  | t :: ts => AB.size t + AB.sizeTup ts

/-- The `[R]` impl's `size`: `self.iter().map(|chunk| chunk.size()).sum()`. -/
def AB.sizeSlice : List AB → Nat
  | [] => 0
  | t :: ts => AB.size t + AB.sizeSlice ts

/-- The `Vec<R>` impl's `size`: `self.iter().map(|chunk| chunk.size()).sum()`
(a separate impl in the source, embedded separately). -/
def AB.sizeVec : List AB → Nat
  | [] => 0
  | t :: ts => AB.size t + AB.sizeVec ts

end

mutual

/-- Function `AtomicBytes::count` for every implementation in `atomic_bytes.rs`. -/
def AB.count : AB → Nat
  | .unit => 0
  | .arr0 => 0
  | .bytes b => contCount b
  | .osStr b => contCount b
  | .ptr _ t => AB.count t
  | .tup ts => AB.countTup ts
  | .slice ts => AB.countSlice ts
  | .vec ts => AB.countVec ts
  | .optNone => 0
  | .optSome t => AB.count t
  | .eleft l => AB.count l
  | .eright r => AB.count r

/-- The tuple `count`: `count += $T.count()` over the components in order. -/
def AB.countTup : List AB → Nat
  | [] => 0
  | t :: ts => AB.count t + AB.countTup ts

/-- The `[R]` impl's `count`: `self.iter().map(|chunk| chunk.count()).sum()`. -/
def AB.countSlice : List AB → Nat
  | [] => 0
  | t :: ts => AB.count t + AB.countSlice ts

/-- The `Vec<R>` impl's `count`. -/
def AB.countVec : List AB → Nat
  | [] => 0
  | t :: ts => AB.count t + AB.countVec ts

end

mutual

/-- Function `AtomicBytes::fill_bytes` for every implementation, as the trace of the
slices passed to `FillBytes::put`, in call order. -/
def AB.fillBytes : AB → List (List Nat)
  | .unit => []
  | .arr0 => []
  | .bytes b => contFill b
  | .osStr b => contFill b
  | .ptr _ t => AB.fillBytes t
  | .tup ts => AB.fillTup ts
  | .slice ts => AB.fillSlice ts
  | .vec ts => AB.fillVec ts
  | .optNone => []
  | .optSome t => AB.fillBytes t
  | .eleft l => AB.fillBytes l
  | .eright r => AB.fillBytes r

/-- The tuple `fill_bytes`: `AtomicBytes::fill_bytes($T, dst)` over the
components in order. -/
def AB.fillTup : List AB → List (List Nat)
  | [] => []
  | t :: ts => AB.fillBytes t ++ AB.fillTup ts

/-- The `[R]` impl's `fill_bytes`: `for t in self { t.fill_bytes(dst) }`. -/
def AB.fillSlice : List AB → List (List Nat)
  | [] => []
  | t :: ts => AB.fillBytes t ++ AB.fillSlice ts

/-- The `Vec<R>` impl's `fill_bytes`. -/
def AB.fillVec : List AB → List (List Nat)
  | [] => []
  | t :: ts => AB.fillBytes t ++ AB.fillVec ts

end

/-- Total number of bytes in a trace of `put` calls. -/
def sumLens (chunks : List (List Nat)) : Nat := (chunks.map List.length).sum

example : AB.size (.tup [.bytes [1, 2, 3], .optSome (.bytes [4])]) = 4 := by decide
example : AB.count (.tup [.bytes [1, 2, 3], .bytes [], .optSome (.bytes [4])]) = 2 := by
  decide
example : AB.fillBytes (.vec [.bytes [1, 2], .bytes [], .eright (.bytes [5])])
    = [[1, 2], [5]] := by decide

theorem sumLens_append (a b : List (List Nat)) :
    sumLens (a ++ b) = sumLens a + sumLens b := by
  simp [sumLens]

theorem contFill_length (b : List Nat) : (contFill b).length = contCount b := by
  simp only [contFill, contCount]
  by_cases h : b.isEmpty <;> simp [h]

theorem contFill_sum (b : List Nat) : sumLens (contFill b) = contSize b := by
  simp only [contFill, contSize, sumLens]
  by_cases h : b.isEmpty
  · simp [h, List.isEmpty_iff.mp h]
  · simp [h]

theorem contFill_ne_nil (b : List Nat) : ∀ c ∈ contFill b, c ≠ [] := by
  intro c hc
  simp only [contFill] at hc
  by_cases h : b.isEmpty
  · simp [h] at hc
  · simp [h] at hc
    subst hc
    exact fun hn => by simp [hn] at h

mutual

/-- Joint induction: for every embedded value, the `put`-trace length equals
`count`, the summed chunk lengths equal `size`, and no chunk is empty. -/
theorem AB.fill_spec : ∀ v : AB, (AB.fillBytes v).length = AB.count v ∧
    sumLens (AB.fillBytes v) = AB.size v ∧ ∀ c ∈ AB.fillBytes v, c ≠ []
  | .unit => by simp [AB.fillBytes, AB.count, AB.size, sumLens]
  | .arr0 => by simp [AB.fillBytes, AB.count, AB.size, sumLens]
  | .bytes b => by
    simpa [AB.fillBytes, AB.count, AB.size] using
      ⟨contFill_length b, contFill_sum b, contFill_ne_nil b⟩
  | .osStr b => by
    simpa [AB.fillBytes, AB.count, AB.size] using
      ⟨contFill_length b, contFill_sum b, contFill_ne_nil b⟩
  | .ptr k t => by
    simpa [AB.fillBytes, AB.count, AB.size] using AB.fill_spec t
  | .tup ts => by
    simpa [AB.fillBytes, AB.count, AB.size] using AB.fillTup_spec ts
  | .slice ts => by
    simpa [AB.fillBytes, AB.count, AB.size] using AB.fillSlice_spec ts
  | .vec ts => by
    simpa [AB.fillBytes, AB.count, AB.size] using AB.fillVec_spec ts
  | .optNone => by simp [AB.fillBytes, AB.count, AB.size, sumLens]
  | .optSome t => by
    simpa [AB.fillBytes, AB.count, AB.size] using AB.fill_spec t
  | .eleft l => by
    simpa [AB.fillBytes, AB.count, AB.size] using AB.fill_spec l
  | .eright r => by
    simpa [AB.fillBytes, AB.count, AB.size] using AB.fill_spec r

theorem AB.fillTup_spec : ∀ ts : List AB, (AB.fillTup ts).length = AB.countTup ts ∧
    sumLens (AB.fillTup ts) = AB.sizeTup ts ∧ ∀ c ∈ AB.fillTup ts, c ≠ []
  | [] => by simp [AB.fillTup, AB.countTup, AB.sizeTup, sumLens]
  | t :: ts => by
    obtain ⟨h1, h2, h3⟩ := AB.fill_spec t
    obtain ⟨h4, h5, h6⟩ := AB.fillTup_spec ts
    refine ⟨?_, ?_, ?_⟩
    · simp [AB.fillTup, AB.countTup, h1, h4]
    · simp [AB.fillTup, AB.sizeTup, sumLens_append, h2, h5]
    · intro c hc
      rcases List.mem_append.mp (by simpa [AB.fillTup] using hc) with h | h
      exacts [h3 c h, h6 c h]

theorem AB.fillSlice_spec : ∀ ts : List AB,
    (AB.fillSlice ts).length = AB.countSlice ts ∧
      sumLens (AB.fillSlice ts) = AB.sizeSlice ts ∧ ∀ c ∈ AB.fillSlice ts, c ≠ []
  | [] => by simp [AB.fillSlice, AB.countSlice, AB.sizeSlice, sumLens]
  | t :: ts => by
    obtain ⟨h1, h2, h3⟩ := AB.fill_spec t
    obtain ⟨h4, h5, h6⟩ := AB.fillSlice_spec ts
    refine ⟨?_, ?_, ?_⟩
    · simp [AB.fillSlice, AB.countSlice, h1, h4]
    · simp [AB.fillSlice, AB.sizeSlice, sumLens_append, h2, h5]
    · intro c hc
      rcases List.mem_append.mp (by simpa [AB.fillSlice] using hc) with h | h
      exacts [h3 c h, h6 c h]

theorem AB.fillVec_spec : ∀ ts : List AB, (AB.fillVec ts).length = AB.countVec ts ∧
    sumLens (AB.fillVec ts) = AB.sizeVec ts ∧ ∀ c ∈ AB.fillVec ts, c ≠ []
  | [] => by simp [AB.fillVec, AB.countVec, AB.sizeVec, sumLens]
  | t :: ts => by
    obtain ⟨h1, h2, h3⟩ := AB.fill_spec t
    obtain ⟨h4, h5, h6⟩ := AB.fillVec_spec ts
    refine ⟨?_, ?_, ?_⟩
    · simp [AB.fillVec, AB.countVec, h1, h4]
    · simp [AB.fillVec, AB.sizeVec, sumLens_append, h2, h5]
    · intro c hc
      rcases List.mem_append.mp (by simpa [AB.fillVec] using hc) with h | h
      exacts [h3 c h, h6 c h]

end

theorem sizeTup_eq_map_sum : ∀ ts : List AB, AB.sizeTup ts = (ts.map AB.size).sum
  | [] => by simp [AB.sizeTup]
  | t :: ts => by simp [AB.sizeTup, sizeTup_eq_map_sum ts]

theorem sizeSlice_eq_map_sum : ∀ ts : List AB, AB.sizeSlice ts = (ts.map AB.size).sum
  | [] => by simp [AB.sizeSlice]
  | t :: ts => by simp [AB.sizeSlice, sizeSlice_eq_map_sum ts]

theorem sizeVec_eq_map_sum : ∀ ts : List AB, AB.sizeVec ts = (ts.map AB.size).sum
  | [] => by simp [AB.sizeVec]
  | t :: ts => by simp [AB.sizeVec, sizeVec_eq_map_sum ts]

theorem countTup_eq_map_sum : ∀ ts : List AB, AB.countTup ts = (ts.map AB.count).sum
  | [] => by simp [AB.countTup]
  | t :: ts => by simp [AB.countTup, countTup_eq_map_sum ts]

theorem countSlice_eq_map_sum : ∀ ts : List AB, AB.countSlice ts = (ts.map AB.count).sum
  | [] => by simp [AB.countSlice]
  | t :: ts => by simp [AB.countSlice, countSlice_eq_map_sum ts]

theorem countVec_eq_map_sum : ∀ ts : List AB, AB.countVec ts = (ts.map AB.count).sum
  | [] => by simp [AB.countVec]
  | t :: ts => by simp [AB.countVec, countVec_eq_map_sum ts]

theorem fillTup_eq_flatten : ∀ ts : List AB,
    AB.fillTup ts = (ts.map AB.fillBytes).flatten
  | [] => by simp [AB.fillTup]
  | t :: ts => by simp [AB.fillTup, fillTup_eq_flatten ts]

theorem fillSlice_eq_flatten : ∀ ts : List AB,
    AB.fillSlice ts = (ts.map AB.fillBytes).flatten
  | [] => by simp [AB.fillSlice]
  | t :: ts => by simp [AB.fillSlice, fillSlice_eq_flatten ts]

theorem fillVec_eq_flatten : ∀ ts : List AB,
    AB.fillVec ts = (ts.map AB.fillBytes).flatten
  | [] => by simp [AB.fillVec]
  | t :: ts => by simp [AB.fillVec, fillVec_eq_flatten ts]

/-! Part 2: the serve loop (`Server::run_until`) and the mount handshake loop
(`Server::mount`) from `src/polyfuse-tokio/src/server.rs`, embedded as
functions over a schedule of I/O events. -/

/-- Raw OS error number of `libc::ENODEV` on Linux. -/
def ENODEV : Int := 19

/-- One iteration's worth of environment behaviour in the `run_until` main
loop: `frame procOk` is a successful `channel.read` followed by a successful
`channel.try_clone` and a spawned worker whose `session.process` succeeds iff
`procOk`; `cloneErr e` is a successful read whose `try_clone` fails with
`raw_os_error()` equal to `e`; `readErr e` is a failing read with
`raw_os_error()` equal to `e`. -/
inductive LoopEvent where
  | frame (procOk : Bool)
  | cloneErr (e : Option Int)
  | readErr (e : Option Int)
deriving DecidableEq, Repr

/-- Outcome of the `main_loop` future inside `run_until`: `ok` is
`return Ok(())`, `fail e` is `return Err(err)` with `err.raw_os_error() = e`,
and `pending` means the schedule ran out while the loop was still reading. -/
inductive LoopResult where
  | ok
  | fail (e : Option Int)
  | pending
deriving DecidableEq, Repr

/-- The `main_loop` async block of `Server::run_until`: each iteration reads a
frame; on a read error it returns `Ok(())` when `raw_os_error()` is `ENODEV`
and `Err(err)` otherwise; on a `try_clone` error the `?` operator returns that
error; otherwise the frame is dispatched to a spawned worker (whose own
`session.process` error is only logged) and the loop continues. The first
component is the list of dispatched frames, in order. -/
def mainLoop : List LoopEvent → List Bool × LoopResult
  | [] => ([], .pending)
  | .readErr e :: _ => ([], if e = some ENODEV then .ok else .fail e)
  | .cloneErr e :: _ => ([], .fail e)
  | .frame p :: rest =>
      let r := mainLoop rest
      (p :: r.1, r.2)

/-- The value `Server::run_until` returns once the main loop completes (no
shutdown signal fires in the schedule): the `select!` arm
`_ = main_loop => Ok(None)` discards the loop's result and yields `Ok(None)`.
`none` means the loop is still running. -/
def runUntil (evs : List LoopEvent) : Option (Except (Option Int) (Option Unit)) :=
  match (mainLoop evs).2 with
  | .pending => none
  | _ => some (Except.ok none)

example : mainLoop [.frame true, .readErr (some 19)] = ([true], .ok) := by decide
example : mainLoop [.frame false, .readErr (some 5), .frame true]
    = ([false], .fail (some 5)) := by decide

/-- C2 (code evaluation at the failing input): when a read fails with a raw OS
error other than ENODEV — here EIO (5) — the `main_loop` future does resolve
to that error, but `run_until` still returns `Ok(None)` because the `select!`
arm discards the loop's result; the ENODEV case also returns `Ok(None)`, with
nothing dispatched after the failing read. -/
theorem C2_read_error_swallowed :
    (mainLoop [.readErr (some 5)]).2 = .fail (some 5) ∧
      runUntil [.readErr (some 5)] = some (Except.ok none) ∧
      runUntil [.frame true, .readErr (some 5)] = some (Except.ok none) ∧
      runUntil [.readErr (some ENODEV)] = some (Except.ok none) ∧
      mainLoop [.frame true, .readErr (some ENODEV)] = ([true], .ok) := by
  refine ⟨rfl, rfl, rfl, rfl, rfl⟩

/-- C3: an error while handling a single request (a worker's
`session.process`, `procOk = false`) does not terminate the main loop — the
loop dispatches the frame and continues with the remaining schedule exactly as
it would for a successful request — whereas a connection-level read error
terminates the loop at once: nothing further is dispatched and the result is
fixed independently of the rest of the schedule. -/
theorem C3_per_request_errors_recovered (p : Bool) (e : Option Int)
    (rest : List LoopEvent) :
    mainLoop (.frame p :: rest) = (p :: (mainLoop rest).1, (mainLoop rest).2) ∧
      mainLoop (.readErr e :: rest) =
        ([], if e = some ENODEV then .ok else .fail e) := by
  constructor <;> simp [mainLoop]

/-- FUSE_INIT opcode (`linux/fuse.h`). -/
def FUSE_INIT : Nat := 26

/-- The library's advertised protocol major version (spec: `major=7`). -/
def libMajor : Nat := 7

/-- A kernel frame as seen by the mount handshake loop, restricted to the
fields the handshake inspects: the opcode and, for INIT, the kernel's
`major`/`minor`. -/
structure MountFrame where
  opcode : Nat
  major : Nat
  minor : Nat
deriving DecidableEq, Repr

/-- A reply written during the handshake: ENOSYS for a non-INIT opcode, or an
INIT_OUT carrying a major/minor pair. -/
inductive InitReply where
  | enosys
  | initOut (major minor : Nat)
deriving DecidableEq, Repr

/-- The negotiated session produced by a completed handshake. -/
structure InitSession where
  major : Nat
  minor : Nat
deriving DecidableEq, Repr

/-- Result of one `try_init` attempt: the handshake completes and establishes
a session, or it stays in Initializing after writing a reply. -/
inductive TryInitResult where
  | established (s : InitSession) (reply : InitReply)
  | retry (reply : InitReply)
deriving DecidableEq, Repr

/-- The session established by a `try_init` attempt, if any. -/
def TryInitResult.session : TryInitResult → Option InitSession
  | .established s _ => some s
  | .retry _ => none

/-- Modelled from the spec: `SessionInitializer::try_init` lives in
`crates/polyfuse/src/session.rs`, which is not among the provided sources.
Spec §4.4: the session waits for a frame with opcode INIT; any non-INIT opcode
in Initializing is answered ENOSYS (and the session stays Initializing); an
INIT whose `major` is older than the library's replies with an INIT_OUT
carrying only the library's `major`/`minor` and stays in Initializing;
otherwise the effective minor is `min(kernel_minor, library_minor)` and the
negotiated INIT_OUT completes the handshake. -/
def tryInitModel (libMinor : Nat) (f : MountFrame) : TryInitResult :=
  if f.opcode ≠ FUSE_INIT then .retry .enosys
  else if f.major < libMajor then .retry (.initOut libMajor libMinor)
  else .established ⟨libMajor, min f.minor libMinor⟩
      (.initOut libMajor (min f.minor libMinor))

/-- The handshake loop of `Server::mount`: read a frame, attempt `try_init`;
`Some(session)` breaks the loop, `None` continues with the next frame.
Returns the session together with the index of the frame that completed the
handshake, or `none` when the schedule of frames runs out. -/
def mountLoop (libMinor : Nat) : List MountFrame → Option (InitSession × Nat)
  | [] => none
  | f :: rest =>
      match tryInitModel libMinor f with
      | .established s _ => some (s, 0)
      | .retry _ => (mountLoop libMinor rest).map (fun p => (p.1, p.2 + 1))

example : mountLoop 31 [⟨FUSE_INIT, 6, 31⟩, ⟨FUSE_INIT, 7, 31⟩]
    = some (⟨7, 31⟩, 1) := by decide
example : mountLoop 31 [⟨1, 7, 31⟩] = none := by decide

/-- If the mount loop yields a session at index `i`, frame `i` completed the
handshake with exactly that session and every earlier frame left the session
unestablished. -/
theorem mountLoop_sound (libMinor : Nat) : ∀ (frames : List MountFrame)
    (s : InitSession) (i : Nat), mountLoop libMinor frames = some (s, i) →
    (∃ f, frames[i]? = some f ∧ (tryInitModel libMinor f).session = some s) ∧
      ∀ j, j < i → ∀ f, frames[j]? = some f →
        (tryInitModel libMinor f).session = none
  | [], s, i, h => by simp [mountLoop] at h
  | f :: rest, s, i, h => by
    rw [mountLoop] at h
    cases hf : tryInitModel libMinor f with
    | established s' r =>
      rw [hf] at h
      have hs : s' = s ∧ 0 = i := by simpa using h
      obtain ⟨rfl, rfl⟩ := hs
      refine ⟨⟨f, by simp, by simp [hf, TryInitResult.session]⟩, ?_⟩
      intro j hj
      exact absurd hj (Nat.not_lt_zero j)
    | retry r =>
      rw [hf] at h
      obtain ⟨⟨s2, i2⟩, hrest, heq⟩ := Option.map_eq_some'.mp h
      have hs : s2 = s ∧ i2 + 1 = i := by simpa using heq
      obtain ⟨rfl, rfl⟩ := hs
      obtain ⟨⟨g, hg1, hg2⟩, hprev⟩ := mountLoop_sound libMinor rest s2 i2 hrest
      refine ⟨⟨g, by simpa using hg1, hg2⟩, ?_⟩
      intro j hj f' hf'
      match j with
      | 0 =>
        have : f = f' := by simpa using hf'
        subst this
        simp [hf, TryInitResult.session]
      | j' + 1 =>
        exact hprev j' (Nat.lt_of_succ_lt_succ hj) f' (by simpa using hf')

/-- C8: during `Server::mount`, the session is never established before a
successful INIT handshake: whenever the mount loop returns a session, the
frame it stopped at completed the handshake and every earlier frame (e.g. a
non-INIT opcode, or an INIT with an older major — which is answered with an
INIT_OUT echoing the library's advertised version) left the loop reading
further frames without a session. -/
theorem C8_session_only_after_handshake (libMinor : Nat)
    (frames : List MountFrame) (s : InitSession) (i : Nat)
    (h : mountLoop libMinor frames = some (s, i)) :
    ((∃ f, frames[i]? = some f ∧ (tryInitModel libMinor f).session = some s) ∧
        ∀ j, j < i → ∀ f, frames[j]? = some f →
          (tryInitModel libMinor f).session = none) ∧
      ∀ m k, m < libMajor → tryInitModel libMinor ⟨FUSE_INIT, m, k⟩ =
        .retry (.initOut libMajor libMinor) := by
  refine ⟨mountLoop_sound libMinor frames s i h, ?_⟩
  intro m k hm
  simp [tryInitModel, FUSE_INIT, hm]

/-- Witness for C8 at the spec's handshake scenario: an INIT with major 6
(older than the library's 7) does not complete the handshake; the following
INIT with major 7 establishes the session at index 1. -/
theorem C8_session_only_after_handshake_witness :
    mountLoop 31 [⟨FUSE_INIT, 6, 31⟩, ⟨FUSE_INIT, 7, 31⟩] = some (⟨7, 31⟩, 1) ∧
      (((∃ f, [(⟨FUSE_INIT, 6, 31⟩ : MountFrame), ⟨FUSE_INIT, 7, 31⟩][1]? = some f ∧
            (tryInitModel 31 f).session = some ⟨7, 31⟩) ∧
          ∀ j, j < 1 → ∀ f,
            [(⟨FUSE_INIT, 6, 31⟩ : MountFrame), ⟨FUSE_INIT, 7, 31⟩][j]? = some f →
              (tryInitModel 31 f).session = none) ∧
        ∀ m k, m < libMajor → tryInitModel 31 ⟨FUSE_INIT, m, k⟩ =
          .retry (.initOut libMajor 31)) :=
  ⟨by decide,
    C8_session_only_after_handshake 31 [⟨FUSE_INIT, 6, 31⟩, ⟨FUSE_INIT, 7, 31⟩]
      ⟨7, 31⟩ 1 (by decide)⟩

/-! Part 3: the `ReaddirOut` streaming builder.  Its implementation lives in
`crates/polyfuse/src/reply.rs`, which is not among the provided sources; the
model below follows the specification (§4.5, §6, scenario S3). -/

/-- Little-endian encoding of `v` into `n` bytes. -/
def leBytes : Nat → Nat → List Nat
  | 0, _ => []
  | n + 1, v => v % 256 :: leBytes n (v / 256)

/-- Modelled from the spec: the on-wire size of one directory entry — the
24-byte `fuse_dirent` header (`ino:u64, off:u64, namelen:u32, type:u32`) plus
`namelen` name bytes, padded to the next multiple of 8. -/
def direntEntsize (namelen : Nat) : Nat := (24 + namelen + 7) / 8 * 8

/-- Modelled from the spec: the bytes appended for one directory entry — the
`fuse_dirent` header fields in order, the name, then zero padding up to
8-byte alignment. -/
def direntBytes (name : List Nat) (ino off typ : Nat) : List Nat :=
  leBytes 8 ino ++ leBytes 8 off ++ leBytes 4 name.length ++ leBytes 4 typ ++
    name ++ List.replicate (direntEntsize name.length - (24 + name.length)) 0

/-- The `ReaddirOut` builder state: the byte budget it was constructed with
and the bytes accumulated so far. -/
structure ReaddirOut where
  budget : Nat
  buf : List Nat
deriving DecidableEq, Repr

/-- Modelled from the spec: `ReaddirOut::new(size)` — a builder with byte
budget equal to the READDIR request's `size` and an empty buffer. -/
def ReaddirOut.new (size : Nat) : ReaddirOut := ⟨size, []⟩

/-- Modelled from the spec: `ReaddirOut::entry(name, ino, type, offset)` —
returns `true` without appending when the next entry would exceed the budget;
otherwise appends the `fuse_dirent` header and the zero-padded name and
returns `false`. -/
def ReaddirOut.entry (out : ReaddirOut) (name : List Nat) (ino off typ : Nat) :
    Bool × ReaddirOut :=
  if out.budget < out.buf.length + direntEntsize name.length then (true, out)
  else (false, ⟨out.budget, out.buf ++ direntBytes name ino off typ⟩)

/-- Arguments of one `ReaddirOut::entry` call. -/
structure EntryArg where
  name : List Nat
  ino : Nat
  off : Nat
  typ : Nat
deriving DecidableEq, Repr

/-- A sequence of `entry` calls against a builder, as in the `do_readdir`
loop of `examples/memfs/src/main.rs`. -/
def runEntries (out : ReaddirOut) : List EntryArg → ReaddirOut
  | [] => out
  | a :: rest => runEntries (out.entry a.name a.ino a.off a.typ).2 rest

theorem leBytes_length : ∀ n v, (leBytes n v).length = n
  | 0, _ => rfl
  | n + 1, v => by simp [leBytes, leBytes_length n]

theorem le_direntEntsize (n : Nat) : 24 + n ≤ direntEntsize n := by
  unfold direntEntsize
  omega

theorem direntEntsize_mod8 (n : Nat) : direntEntsize n % 8 = 0 := by
  unfold direntEntsize
  omega

theorem direntBytes_length (name : List Nat) (ino off typ : Nat) :
    (direntBytes name ino off typ).length = direntEntsize name.length := by
  have h := le_direntEntsize name.length
  simp [direntBytes, leBytes_length]
  omega

/-- An `entry` call keeps the budget and preserves the 8-alignment and
within-budget invariants of the buffer. -/
theorem entry_preserves_inv (out : ReaddirOut) (name : List Nat)
    (ino off typ : Nat) (h8 : out.buf.length % 8 = 0)
    (hb : out.buf.length ≤ out.budget) :
    ((out.entry name ino off typ).2).budget = out.budget ∧
      ((out.entry name ino off typ).2).buf.length % 8 = 0 ∧
      ((out.entry name ino off typ).2).buf.length ≤ out.budget := by
  unfold ReaddirOut.entry
  by_cases hc : out.budget < out.buf.length + direntEntsize name.length
  · simp [hc, h8, hb]
  · have hm := direntEntsize_mod8 name.length
    simp [hc, direntBytes_length]
    omega

/-- Any sequence of `entry` calls preserves the builder invariants. -/
theorem runEntries_inv : ∀ (args : List EntryArg) (out : ReaddirOut),
    out.buf.length % 8 = 0 → out.buf.length ≤ out.budget →
    (runEntries out args).budget = out.budget ∧
      (runEntries out args).buf.length % 8 = 0 ∧
      (runEntries out args).buf.length ≤ out.budget
  | [], out, h8, hb => ⟨rfl, h8, hb⟩
  | a :: rest, out, h8, hb => by
    obtain ⟨he1, he2, he3⟩ := entry_preserves_inv out a.name a.ino a.off a.typ h8 hb
    obtain ⟨hr1, hr2, hr3⟩ :=
      runEntries_inv rest (out.entry a.name a.ino a.off a.typ).2 he2 (he1 ▸ he3)
    exact ⟨by simpa [runEntries, he1] using hr1, by simpa [runEntries] using hr2,
      by simpa [runEntries, he1] using hr3⟩

example :
    (runEntries (ReaddirOut.new 64)
        [⟨[46], 1, 1, 4⟩, ⟨[46, 46], 1, 2, 4⟩]).buf.length = 64 := by decide
example :
    ((runEntries (ReaddirOut.new 64)
        [⟨[46], 1, 1, 4⟩, ⟨[46, 46], 1, 2, 4⟩]).entry [120] 2 3 8).1 = true := by
  decide

/-- C9: a `ReaddirOut` with byte budget equal to the READDIR `size` behaves as
specified: a fitting `entry` call returns `false` and appends the
`fuse_dirent` header plus the name padded with zeros to 8-byte alignment (the
appended run has the 8-aligned entry size, which covers the 24-byte header and
the name); a call whose entry would exceed the budget returns `true` and
appends nothing; and after any sequence of calls the accumulated buffer length
is a multiple of 8 and at most the budget. -/
theorem C9_readdir_budget_alignment (budget : Nat) (args : List EntryArg)
    (out : ReaddirOut) (name : List Nat) (ino off typ : Nat) :
    (out.buf.length + direntEntsize name.length ≤ out.budget →
        out.entry name ino off typ =
          (false, ⟨out.budget, out.buf ++ direntBytes name ino off typ⟩)) ∧
      (direntBytes name ino off typ).length = direntEntsize name.length ∧
      direntEntsize name.length % 8 = 0 ∧
      24 + name.length ≤ direntEntsize name.length ∧
      (out.budget < out.buf.length + direntEntsize name.length →
        out.entry name ino off typ = (true, out)) ∧
      (runEntries (ReaddirOut.new budget) args).buf.length % 8 = 0 ∧
      (runEntries (ReaddirOut.new budget) args).buf.length ≤ budget := by
  obtain ⟨h1, h2, h3⟩ := runEntries_inv args (ReaddirOut.new budget) rfl
    (Nat.zero_le budget)
  refine ⟨?_, direntBytes_length name ino off typ, direntEntsize_mod8 name.length,
    le_direntEntsize name.length, ?_, h2, by simpa [ReaddirOut.new] using h3⟩
  · intro hfit
    simp [ReaddirOut.entry, Nat.not_lt_of_le hfit]
  · intro hover
    simp [ReaddirOut.entry, hover]

/-- Witness for C9 at the spec's scenario S3: budget 64; `"."` (32 bytes) and
`".."` (32 bytes) both fit, filling the budget exactly; the invariants hold on
the resulting buffer. -/
theorem C9_readdir_budget_alignment_witness :
    (ReaddirOut.new 64).buf.length + direntEntsize 1 ≤ 64 ∧
      (ReaddirOut.new 64).entry [46] 1 1 4 =
        (false, ⟨64, direntBytes [46] 1 1 4⟩) ∧
      (runEntries (ReaddirOut.new 64)
          [⟨[46], 1, 1, 4⟩, ⟨[46, 46], 1, 2, 4⟩, ⟨[120], 2, 3, 8⟩]).buf.length % 8
          = 0 ∧
      (runEntries (ReaddirOut.new 64)
          [⟨[46], 1, 1, 4⟩, ⟨[46, 46], 1, 2, 4⟩, ⟨[120], 2, 3, 8⟩]).buf.length ≤ 64 :=
  ⟨by decide,
    (C9_readdir_budget_alignment 64 [] (ReaddirOut.new 64) [46] 1 1 4).1 (by decide),
    (C9_readdir_budget_alignment 64
        [⟨[46], 1, 1, 4⟩, ⟨[46, 46], 1, 2, 4⟩, ⟨[120], 2, 3, 8⟩]
        (ReaddirOut.new 64) [46] 1 1 4).2.2.2.2.2.1,
    (C9_readdir_budget_alignment 64
        [⟨[46], 1, 1, 4⟩, ⟨[46, 46], 1, 2, 4⟩, ⟨[120], 2, 3, 8⟩]
        (ReaddirOut.new 64) [46] 1 1 4).2.2.2.2.2.2⟩

/-- C1: for every value of every `AtomicBytes` type provided by the library
(unit, zero-length array, byte/string leaves, OsStr/OsString, tuples, slices,
Vec, Option, Either, pointer wrappers), the number of `put` calls performed by
`fill_bytes` equals `count()`, the summed lengths of the slices passed to `put`
equal `size()`, and no empty slice is ever passed to `put`. -/
theorem C1_count_size_law (v : AB) :
    (AB.fillBytes v).length = AB.count v ∧
      sumLens (AB.fillBytes v) = AB.size v ∧
      ∀ c ∈ AB.fillBytes v, c ≠ [] :=
  AB.fill_spec v

/-- C4: every byte-like leaf (`[u8]`, `str`, `String`, `Vec<u8>`, `Cow<[u8]>`,
and `OsStr`/`OsString` via `as_bytes`) has `size()` equal to its byte length,
contributes exactly one `put` of the whole content when non-empty, and zero
`put` calls when empty. -/
theorem C4_byte_leaf_chunks (b : List Nat) :
    AB.size (.bytes b) = b.length ∧
      AB.size (.osStr b) = b.length ∧
      AB.count (.bytes b) = (if b = [] then 0 else 1) ∧
      AB.count (.osStr b) = (if b = [] then 0 else 1) ∧
      AB.fillBytes (.bytes b) = (if b = [] then [] else [b]) ∧
      AB.fillBytes (.osStr b) = (if b = [] then [] else [b]) := by
  refine ⟨?_, ?_, ?_, ?_, ?_, ?_⟩ <;>
    simp [AB.size, AB.count, AB.fillBytes, contSize, contCount, contFill,
      List.isEmpty_iff]

/-- C5: each of the five pointer wrappers (`&T`, `&mut T`, `Box<T>`, `Rc<T>`,
`Arc<T>`) delegates `size`, `count` and `fill_bytes` to the wrapped value: the
wrapper's results, including the exact `put`-call sequence, coincide with the
wrappee's. -/
theorem C5_pointer_delegation (k : PtrKind) (t : AB) :
    AB.size (.ptr k t) = AB.size t ∧
      AB.count (.ptr k t) = AB.count t ∧
      AB.fillBytes (.ptr k t) = AB.fillBytes t := by
  refine ⟨?_, ?_, ?_⟩ <;> simp [AB.size, AB.count, AB.fillBytes]

/-- C6: for slices, `Vec`s and tuples of `AtomicBytes` values, `size` is the
sum of the elements' sizes, `count` the sum of their counts, and `fill_bytes`
emits the elements' chunks concatenated in left-to-right iteration order. -/
theorem C6_sequence_concatenation (ts : List AB) :
    (AB.size (.slice ts) = (ts.map AB.size).sum ∧
        AB.count (.slice ts) = (ts.map AB.count).sum ∧
        AB.fillBytes (.slice ts) = (ts.map AB.fillBytes).flatten) ∧
      (AB.size (.vec ts) = (ts.map AB.size).sum ∧
        AB.count (.vec ts) = (ts.map AB.count).sum ∧
        AB.fillBytes (.vec ts) = (ts.map AB.fillBytes).flatten) ∧
      (AB.size (.tup ts) = (ts.map AB.size).sum ∧
        AB.count (.tup ts) = (ts.map AB.count).sum ∧
        AB.fillBytes (.tup ts) = (ts.map AB.fillBytes).flatten) := by
  refine ⟨⟨?_, ?_, ?_⟩, ⟨?_, ?_, ?_⟩, ⟨?_, ?_, ?_⟩⟩ <;>
    simp [AB.size, AB.count, AB.fillBytes, sizeSlice_eq_map_sum,
      sizeVec_eq_map_sum, sizeTup_eq_map_sum, countSlice_eq_map_sum,
      countVec_eq_map_sum, countTup_eq_map_sum, fillSlice_eq_flatten,
      fillVec_eq_flatten, fillTup_eq_flatten]

/-- C7: `Option<T>` contributes its inner value's size, count and `put`
sequence when `Some`, and 0, 0 and nothing when `None`; `Either<L, R>`
contributes exactly those of whichever branch is present. -/
theorem C7_option_either_dispatch (t l r : AB) :
    (AB.size (.optSome t) = AB.size t ∧
        AB.count (.optSome t) = AB.count t ∧
        AB.fillBytes (.optSome t) = AB.fillBytes t) ∧
      (AB.size .optNone = 0 ∧
        AB.count .optNone = 0 ∧
        AB.fillBytes .optNone = []) ∧
      (AB.size (.eleft l) = AB.size l ∧
        AB.count (.eleft l) = AB.count l ∧
        AB.fillBytes (.eleft l) = AB.fillBytes l) ∧
      (AB.size (.eright r) = AB.size r ∧
        AB.count (.eright r) = AB.count r ∧
        AB.fillBytes (.eright r) = AB.fillBytes r) := by
  refine ⟨⟨?_, ?_, ?_⟩, ⟨?_, ?_, ?_⟩, ⟨?_, ?_, ?_⟩, ⟨?_, ?_, ?_⟩⟩ <;>
    simp [AB.size, AB.count, AB.fillBytes]

/-- C10: the `AtomicBytes` impl for `Vec<R>` is extensionally equal to the
impl for the slice `[R]` on the same elements: `size`, `count` and the
`put`-call sequence coincide. -/
theorem C10_vec_refines_slice (ts : List AB) :
    AB.size (.vec ts) = AB.size (.slice ts) ∧
      AB.count (.vec ts) = AB.count (.slice ts) ∧
      AB.fillBytes (.vec ts) = AB.fillBytes (.slice ts) := by
  refine ⟨?_, ?_, ?_⟩ <;>
    simp [AB.size, AB.count, AB.fillBytes, sizeVec_eq_map_sum,
      sizeSlice_eq_map_sum, countVec_eq_map_sum, countSlice_eq_map_sum,
      fillVec_eq_flatten, fillSlice_eq_flatten]

end Polyfuse
